import Mathlib

/-!
Verification development for the OfflineTimeTracker repository.

The repository ships a frontend (`src/index.tsx`) that displays per-game
offline playtime and forwards control requests to a backend engine.  The
engine itself (state machine, session ledger, persistence store) is
described by the design document; it is embedded here from that
description, while every function present in `src/index.tsx` is embedded
directly from the code.
-/

namespace OfflineTimeTracker

/-! ## Frontend data model (from src/index.tsx, lines 31-41)

`interface GameTimeData { total_seconds: number; last_played: number;
sessions: Array<{start; end; duration}> }`.  Note that `last_played` is a
required numeric field in the code. -/

structure UISession where
  start : Int
  endT : Int
  duration : Int
deriving DecidableEq, Repr

structure GameTimeData where
  total_seconds : Int
  last_played : Int
  sessions : List UISession
deriving DecidableEq, Repr

/-! ## formatTime (from src/index.tsx, lines 44-54)

The code calls date-fns `intervalToDuration({start: 0, end: seconds*1000})`
and then joins the non-zero components.  `intervalToDuration` is an
external dependency, not code of this repository; it is modelled below. -/

structure Duration where
  years : Nat
  months : Nat
  days : Nat
  hours : Nat
  minutes : Nat
  seconds : Nat
deriving DecidableEq, Repr

/-- Civil date (year, month, day) from a count of days since 1970-01-01,
by the standard Gregorian-calendar conversion. -/
def civilFromDays (z : Nat) : Nat × Nat × Nat :=
  let z' := z + 719468
  let era := z' / 146097
  let doe := z' % 146097
  let yoe := ((doe - doe / 1460 + doe / 36524) - doe / 146096) / 365
  let y := yoe + era * 400
  let doy := doe - (365 * yoe + yoe / 4 - yoe / 100)
  let mp := (5 * doy + 2) / 153
  let d := doy - (153 * mp + 2) / 5 + 1
  let m := if mp < 10 then mp + 3 else mp - 9
  (if m ≤ 2 then y + 1 else y, m, d)

/-- Modelled from the spec: `intervalToDuration` of the external date-fns
library is not part of this repository.  For a start at the unix epoch and
a non-negative whole-second interval, evaluated in UTC, it decomposes the
interval into the civil calendar components of the end instant: full years
since 1970, full months since the start of that year, and so on down to
the residual seconds. -/
def intervalToDuration (seconds : Nat) : Duration :=
  let days := seconds / 86400
  let rem := seconds % 86400
  let c := civilFromDays days
  { years := c.1 - 1970
    months := c.2.1 - 1
    days := c.2.2 - 1
    hours := rem / 3600
    minutes := rem % 3600 / 60
    seconds := rem % 60 }

/-- The `parts` array built by `formatTime` (src/index.tsx lines 46-52):
pushes `${days}d` when truthy, `${hours}h` when truthy, `${minutes}m` when
truthy or when nothing was pushed yet, and always `${seconds}s`. -/
def formatTimeParts (seconds : Nat) : List String :=
  let d := intervalToDuration seconds
  let parts : List String := []
  let parts := if d.days ≠ 0 then parts ++ [toString d.days ++ "d"] else parts
  let parts := if d.hours ≠ 0 then parts ++ [toString d.hours ++ "h"] else parts
  let parts := if d.minutes ≠ 0 ∨ parts = [] then parts ++ [toString d.minutes ++ "m"] else parts
  parts ++ [toString d.seconds ++ "s"]

/-- `formatTime` (src/index.tsx lines 44-54): `parts.join(' ')`. -/
def formatTime (seconds : Nat) : String :=
  String.intercalate " " (formatTimeParts seconds)

/-! ## GameTimeItem rendering (from src/index.tsx, lines 75-122) -/

/-- The `lastPlayed` text of `GameTimeItem` (src/index.tsx lines 81-83):
`timeData.last_played ? \x7bformatted distance\x7d : 'Never played'`.  The
JavaScript condition is truthiness of the number, i.e. `last_played ≠ 0`.
date-fns `formatDistanceToNow` is external; it is abstracted as the
function argument `fmt` applied to the millisecond timestamp. -/
def lastPlayedText (fmt : Int → String) (timeData : GameTimeData) : String :=
  if timeData.last_played ≠ 0 then
    "Last played " ++ fmt (timeData.last_played * 1000)
  else
    "Never played"

/-- The `nProgress` value handed to `ProgressBarWithInfo`
(src/index.tsx line 107): `Math.min(timeData.total_seconds / 3600, 100)`.
JavaScript number division is embedded as exact rational division. -/
def nProgress (timeData : GameTimeData) : ℚ :=
  min ((timeData.total_seconds : ℚ) / 3600) 100

/-! ## clear_offline_data requests (from src/index.tsx) -/

/-- The params object built by the first `clearGameData` handler
(src/index.tsx lines 162-165):
`const params = gameName ? \x7b game_name: gameName \x7d : \x7b\x7d`.
JavaScript truthiness of a string excludes the empty string. -/
def clearGameDataParams (gameName : Option String) : List (String × String) :=
  match gameName with
  | some n => if n = "" then [] else [("game_name", n)]
  | none => []

/-- The params object built by the second `clearGameData` handler
(src/index.tsx line 361): `\x7b gameId \x7d` — the key is always present,
carrying `undefined` when clearing all games. -/
def clearGameDataParamsB (gameId : Option String) : List (String × Option String) :=
  [("gameId", gameId)]

/-! ## Tracking engine

Modelled from the spec: the engine (StatusMonitor, TrackingStateMachine,
SessionLedger, PersistenceStore, Gateway) is not among the repository's
source files; only the frontend that calls it is.  The definitions below
follow the design document's data model (section 3), state machine
(section 4.2) and ledger operations (section 4.3). -/

structure Session where
  start : Int
  endT : Int
  duration : Int
deriving DecidableEq, Repr

structure GameRecord where
  total_seconds : Int
  last_played : Option Int
  sessions : List Session
deriving DecidableEq, Repr

abbrev Ledger := List (String × GameRecord)

/-- A StatusEvent payload: the full observed state, not a delta. -/
structure Obs where
  online : Bool
  active_game : Option String
deriving DecidableEq, Repr

/-- Engine state: the tracking flag, the single open-session slot
`(gameId, session start)`, the StatusMonitor's previously observed
values, and the session ledger. -/
structure EngineState where
  enabled : Bool
  active : Option (String × Int)
  lastObs : Option Obs
  ledger : Ledger
deriving DecidableEq, Repr

def emptyRecord : GameRecord := ⟨0, none, []⟩

/-- Closing an open session `(start = s)` at time `t` produces the closed
session appended to history. -/
def closedSession (s t : Int) : Session := ⟨s, t, t - s⟩

/-- Modelled from the spec: `endSession` bookkeeping on one record —
append the closed session, add its duration to the total, set
`last_played` to the close time. -/
def appendToRecord (r : GameRecord) (s t : Int) : GameRecord :=
  { total_seconds := r.total_seconds + (t - s)
    last_played := some t
    sessions := r.sessions ++ [closedSession s t] }

/-- Modelled from the spec: closing a session for game `g` updates `g`'s
record in the ledger, creating it lazily on first close. -/
def appendSession : Ledger → String → Int → Int → Ledger
  | [], g, s, t => [(g, appendToRecord emptyRecord s t)]
  | (k, r) :: rest, g, s, t =>
      if k = g then (k, appendToRecord r s t) :: rest
      else (k, r) :: appendSession rest g s t

def lookupRecord : Ledger → String → Option GameRecord
  | [], _ => none
  | (k, r) :: rest, g => if k = g then some r else lookupRecord rest g

/-- Modelled from the spec: close the open session (if any) at time `t`,
appending it to the ledger; no-op when no session is open. -/
def closeSession (st : EngineState) (t : Int) : EngineState :=
  match st.active with
  | none => st
  | some (g, s) => { st with active := none, ledger := appendSession st.ledger g s t }

/-- Modelled from the spec: the TrackingStateMachine's reaction to a
StatusEvent at time `t` (section 4.2 transition table).  Events are
ignored while disabled; offline with a foreground game opens or
atomically switches the session; online or no foreground game closes it. -/
def handleEvent (st : EngineState) (o : Obs) (t : Int) : EngineState :=
  if st.enabled = false then st
  else if o.online = false then
    match o.active_game with
    | some g =>
        match st.active with
        | some (g1, s) =>
            if g1 = g then st
            else { st with active := some (g, t), ledger := appendSession st.ledger g1 s t }
        | none => { st with active := some (g, t) }
    | none => closeSession st t
  else closeSession st t

/-- Modelled from the spec: one StatusMonitor tick that successfully read
observation `o` — edge-triggered, an event reaches the state machine only
when `o` differs from the previously observed values; the previous values
are updated even while disabled. -/
def observe (st : EngineState) (o : Obs) (t : Int) : EngineState :=
  if st.lastObs = some o then st
  else { handleEvent st o t with lastObs := some o }

/-- Modelled from the spec: the enable/disable control — disabling closes
any open session at the current time; enabling alone never opens one. -/
def setEnabled (st : EngineState) (b : Bool) (t : Int) : EngineState :=
  if b then { st with enabled := true }
  else { closeSession st t with enabled := false }

/-- Removal of every entry keyed by `g` from the ledger. -/
def removeGame : Ledger → String → Ledger
  | [], _ => []
  | (k, r) :: rest, g => if k = g then removeGame rest g else (k, r) :: removeGame rest g

/-- Modelled from the spec: `clear(gameId)` removes that game's record
entirely; a no-op success when the id is absent. -/
def clearGame (st : EngineState) (g : String) : EngineState :=
  { st with ledger := removeGame st.ledger g }

/-- Modelled from the spec: `clearAll()` empties the ledger. -/
def clearAll (st : EngineState) : EngineState :=
  { st with ledger := [] }

/-- The commands the single-writer engine loop serializes: a StatusMonitor
tick (whose read may fail, yielding `none` and leaving everything as it
was), the enable/disable control, and the two clear operations. -/
inductive Cmd where
  | tick (o : Option Obs)
  | control (b : Bool)
  | clearOne (g : String)
  | clearEverything
deriving DecidableEq, Repr

def exec (st : EngineState) (c : Cmd) (t : Int) : EngineState :=
  match c with
  | .tick none => st
  | .tick (some o) => observe st o t
  | .control b => setEnabled st b t
  | .clearOne g => clearGame st g
  | .clearEverything => clearAll st

/-- Engine start: no open session, no previous observation, an empty
ledger, and the persisted enabled flag. -/
def initState (enabled0 : Bool) : EngineState :=
  { enabled := enabled0, active := none, lastObs := none, ledger := [] }

/-- Reachable engine states, indexed by a time `t0` that bounds every
event time used so far (the environment's clock is monotone). -/
inductive Reachable : Int → EngineState → Prop where
  | init (e : Bool) (t : Int) : Reachable t (initState e)
  | step {t0 : Int} {st : EngineState} (h : Reachable t0 st) (c : Cmd) (t : Int)
      (ht : t0 ≤ t) : Reachable t (exec st c t)

/-! ## Gateway (section 6) -/

structure GatewayResponse where
  success : Bool
  result : Ledger
deriving DecidableEq, Repr

/-- Modelled from the spec: `get_all_offline_times` returns a success flag
and a snapshot of the ledger, mapping each GameId to its record. -/
def get_all_offline_times (st : EngineState) : GatewayResponse := ⟨true, st.ledger⟩

/-- Modelled from the spec: `clear_offline_data` on the ledger — with a
GameId it removes that record (no-op success when absent), without one it
clears all games; the success flag is returned alongside. -/
def clear_offline_data (led : Ledger) (g : Option String) : Bool × Ledger :=
  match g with
  | some g => (true, removeGame led g)
  | none => (true, [])

/-! ## PersistenceStore load path (section 4.4) -/

/-- A structured document value, as persisted by the store. -/
inductive Json where
  | num (n : Int)
  | str (s : String)
  | bool (b : Bool)
  | null
  | arr (xs : List Json)
  | obj (fields : List (String × Json))

def getField (fields : List (String × Json)) (k : String) : Option Json :=
  match fields.find? (fun p => p.1 == k) with
  | some p => some p.2
  | none => none

def asInt : Json → Option Int
  | .num n => some n
  | _ => none

/-- Modelled from the spec: one persisted session entry is an object with
integer `start`, `end` and `duration` fields; unknown extra fields are
ignorable. -/
def parseSession (j : Json) : Option Session :=
  match j with
  | .obj fields =>
      match (getField fields "start").bind asInt,
            (getField fields "end").bind asInt,
            (getField fields "duration").bind asInt with
      | some s, some e, some d => some ⟨s, e, d⟩
      | _, _, _ => none
  | _ => none

def parseSessions : List Json → Option (List Session)
  | [] => some []
  | j :: rest =>
      match parseSession j, parseSessions rest with
      | some x, some xs => some (x :: xs)
      | _, _ => none

/-- Modelled from the spec: one persisted game record — a non-negative
integer `total_seconds`, an integer `last_played` that may be absent, and
a `sessions` list; anything else is unparsable. -/
def parseRecord (j : Json) : Option GameRecord :=
  match j with
  | .obj fields =>
      match (getField fields "total_seconds").bind asInt with
      | none => none
      | some tot =>
          if tot < 0 then none
          else
            match getField fields "last_played" with
            | some v =>
                match asInt v with
                | none => none
                | some lp => parseRecordRest fields tot (some lp)
            | none => parseRecordRest fields tot none
  | _ => none
where
  parseRecordRest (fields : List (String × Json)) (tot : Int) (lp : Option Int) :
      Option GameRecord :=
    match getField fields "sessions" with
    | some (.arr xs) =>
        match parseSessions xs with
        | some sess => some ⟨tot, lp, sess⟩
        | none => none
    | _ => none

def parseEntries : List (String × Json) → Option Ledger
  | [] => some []
  | (k, v) :: rest =>
      match parseRecord v, parseEntries rest with
      | some r, some tl => some ((k, r) :: tl)
      | _, _ => none

/-- Modelled from the spec: the persisted file layout is a structured
document mapping GameId to a game record. -/
def parseLedger (j : Json) : Option Ledger :=
  match j with
  | .obj fields => parseEntries fields
  | _ => none

/-- Modelled from the spec: `load()` — a missing file (`none`) yields an
empty ledger; content that fails to parse is logged and also yields an
empty ledger; startup never fails. -/
def load (input : Option Json) : Ledger :=
  match input with
  | none => []
  | some j => (parseLedger j).getD []

/-! ## Well-formedness and the engine invariant -/

def sumDur (l : List Session) : Int := (l.map (fun x => x.duration)).sum

def sessionWF (x : Session) : Prop := x.start ≤ x.endT ∧ x.duration = x.endT - x.start

def sortedByStart (l : List Session) : Prop := l.Chain' (fun a b => a.start ≤ b.start)

/-- The GameRecord invariant of the data model, except non-emptiness:
totals agree with the session history, sessions are well formed and
ordered, `last_played` is the end of the most recent session. -/
def recordWF0 (r : GameRecord) : Prop :=
  r.total_seconds = sumDur r.sessions ∧ sortedByStart r.sessions ∧
  (∀ x ∈ r.sessions, sessionWF x) ∧
  r.last_played = r.sessions.getLast?.map (fun x => x.endT)

/-- Ledger entries are created lazily on first session close, so a live
record also has at least one session. -/
def recordWF (r : GameRecord) : Prop := recordWF0 r ∧ r.sessions ≠ []

/-- Every session of the record ended no later than `t0`. -/
def recordLe (t0 : Int) (r : GameRecord) : Prop := ∀ x ∈ r.sessions, x.endT ≤ t0

/-- The engine invariant at clock bound `t0`: all ledger records are well
formed and closed by `t0`; an open session implies tracking is enabled,
the last observation was offline with that game in the foreground, its
start is bounded by `t0`, and every closed session ended before it
started. -/
def Inv (t0 : Int) (st : EngineState) : Prop :=
  (∀ p ∈ st.ledger, recordWF p.2 ∧ recordLe t0 p.2) ∧
  (∀ g s, st.active = some (g, s) →
    s ≤ t0 ∧ st.enabled = true ∧ st.lastObs = some ⟨false, some g⟩ ∧
    ∀ p ∈ st.ledger, recordLe s p.2)

lemma recordLe_mono {s t : Int} {r : GameRecord} (h : recordLe s r) (hst : s ≤ t) :
    recordLe t r :=
  fun x hx => le_trans (h x hx) hst

lemma Inv_mono {t0 t : Int} {st : EngineState} (h : Inv t0 st) (ht : t0 ≤ t) :
    Inv t st := by
  obtain ⟨hl, ha⟩ := h
  refine ⟨fun p hp => ⟨(hl p hp).1, recordLe_mono (hl p hp).2 ht⟩, ?_⟩
  intro g s hs
  obtain ⟨h1, h2, h3, h4⟩ := ha g s hs
  exact ⟨le_trans h1 ht, h2, h3, h4⟩

lemma recordWF0_empty : recordWF0 emptyRecord := by
  refine ⟨rfl, List.chain'_nil, ?_, rfl⟩
  intro x hx
  simp [emptyRecord] at hx

lemma recordWF_appendToRecord {r : GameRecord} {s t : Int}
    (h : recordWF0 r) (hle : recordLe s r) (hst : s ≤ t) :
    recordWF (appendToRecord r s t) := by
  obtain ⟨htot, hsort, hwf, hlp⟩ := h
  refine ⟨⟨?_, ?_, ?_, ?_⟩, by simp [appendToRecord]⟩
  · simp [appendToRecord, sumDur, closedSession] at htot ⊢
    omega
  · simp only [appendToRecord, sortedByStart, List.chain'_append]
    refine ⟨hsort, List.chain'_singleton _, ?_⟩
    intro x hx y hy
    simp [closedSession] at hy
    subst hy
    have hmem : x ∈ r.sessions := List.mem_of_mem_getLast? hx
    have h1 := (hwf x hmem).1
    have h2 := hle x hmem
    simp only []
    omega
  · intro x hx
    simp [appendToRecord, closedSession] at hx
    rcases hx with hx | hx
    · exact hwf x hx
    · subst hx
      exact ⟨hst, rfl⟩
  · simp [appendToRecord, closedSession]

lemma recordLe_appendToRecord {r : GameRecord} {s t : Int}
    (hle : recordLe s r) (hst : s ≤ t) : recordLe t (appendToRecord r s t) := by
  intro x hx
  simp [appendToRecord, closedSession] at hx
  rcases hx with hx | hx
  · exact le_trans (hle x hx) hst
  · subst hx
    exact le_refl t

/-- Closing the open session of game `g` at time `t` keeps every ledger
record well formed and bounds them all by `t`. -/
lemma appendSession_pres {led : Ledger} {g : String} {s t : Int}
    (h : ∀ p ∈ led, recordWF p.2 ∧ recordLe s p.2) (hst : s ≤ t) :
    ∀ p ∈ appendSession led g s t, recordWF p.2 ∧ recordLe t p.2 := by
  induction led with
  | nil =>
      intro p hp
      simp [appendSession] at hp
      subst hp
      refine ⟨recordWF_appendToRecord recordWF0_empty ?_ hst, recordLe_appendToRecord ?_ hst⟩
      all_goals intro x hx; simp [emptyRecord] at hx
  | cons q rest ih =>
      obtain ⟨k, r⟩ := q
      intro p hp
      by_cases hk : k = g
      · simp only [appendSession, if_pos hk] at hp
        rcases List.mem_cons.mp hp with hp | hp
        · subst hp
          have hh := h (k, r) (List.mem_cons_self _ _)
          exact ⟨recordWF_appendToRecord hh.1.1 hh.2 hst, recordLe_appendToRecord hh.2 hst⟩
        · have hh := h p (List.mem_cons_of_mem _ hp)
          exact ⟨hh.1, recordLe_mono hh.2 hst⟩
      · simp only [appendSession, if_neg hk] at hp
        rcases List.mem_cons.mp hp with hp | hp
        · subst hp
          have hh := h (k, r) (List.mem_cons_self _ _)
          exact ⟨hh.1, recordLe_mono hh.2 hst⟩
        · exact ih (fun q hq => h q (List.mem_cons_of_mem _ hq)) p hp

lemma mem_removeGame {led : Ledger} {g : String} {p : String × GameRecord}
    (h : p ∈ removeGame led g) : p ∈ led := by
  induction led with
  | nil => simp [removeGame] at h
  | cons q rest ih =>
      obtain ⟨k, r⟩ := q
      by_cases hk : k = g
      · rw [removeGame, if_pos hk] at h
        exact List.mem_cons_of_mem _ (ih h)
      · rw [removeGame, if_neg hk] at h
        rcases List.mem_cons.mp h with h | h
        · exact h ▸ List.mem_cons_self _ _
        · exact List.mem_cons_of_mem _ (ih h)

lemma closeSession_active (st : EngineState) (t : Int) : (closeSession st t).active = none := by
  unfold closeSession
  cases h : st.active with
  | none => simpa using h
  | some gs => rfl

lemma closeSession_enabled (st : EngineState) (t : Int) :
    (closeSession st t).enabled = st.enabled := by
  unfold closeSession
  cases h : st.active with
  | none => rfl
  | some gs => rfl

lemma closeSession_lastObs (st : EngineState) (t : Int) :
    (closeSession st t).lastObs = st.lastObs := by
  unfold closeSession
  cases h : st.active with
  | none => rfl
  | some gs => rfl

lemma closeSession_ledger {t : Int} {st : EngineState} (ih : Inv t st) :
    ∀ p ∈ (closeSession st t).ledger, recordWF p.2 ∧ recordLe t p.2 := by
  obtain ⟨hl, ha⟩ := ih
  unfold closeSession
  cases h : st.active with
  | none => exact hl
  | some gs =>
      obtain ⟨g, s⟩ := gs
      obtain ⟨hs, -, -, hrec⟩ := ha g s h
      exact appendSession_pres (fun p hp => ⟨(hl p hp).1, hrec p hp⟩) hs

/-! Characterizations of `handleEvent`, one per transition of the state
machine's table. -/

lemma handleEvent_disabled {st : EngineState} {o : Obs} {t : Int}
    (h : st.enabled = false) : handleEvent st o t = st := by
  simp [handleEvent, h]

lemma handleEvent_online {st : EngineState} {o : Obs} {t : Int}
    (h : st.enabled = true) (hon : o.online = true) :
    handleEvent st o t = closeSession st t := by
  simp [handleEvent, h, hon]

lemma handleEvent_nogame {st : EngineState} {o : Obs} {t : Int}
    (h : st.enabled = true) (hon : o.online = false) (hag : o.active_game = none) :
    handleEvent st o t = closeSession st t := by
  simp [handleEvent, h, hon, hag]

lemma handleEvent_open {st : EngineState} {o : Obs} {t : Int} {g : String}
    (h : st.enabled = true) (hon : o.online = false) (hag : o.active_game = some g)
    (hao : st.active = none) :
    handleEvent st o t = { st with active := some (g, t) } := by
  simp [handleEvent, h, hon, hag, hao]

lemma handleEvent_same {st : EngineState} {o : Obs} {t s : Int} {g : String}
    (h : st.enabled = true) (hon : o.online = false) (hag : o.active_game = some g)
    (hao : st.active = some (g, s)) :
    handleEvent st o t = st := by
  simp [handleEvent, h, hon, hag, hao]

lemma handleEvent_switch {st : EngineState} {o : Obs} {t s : Int} {g g1 : String}
    (h : st.enabled = true) (hon : o.online = false) (hag : o.active_game = some g)
    (hao : st.active = some (g1, s)) (hgg : g1 ≠ g) :
    handleEvent st o t =
      { st with active := some (g, t), ledger := appendSession st.ledger g1 s t } := by
  simp [handleEvent, h, hon, hag, hao, hgg]

/-- The engine invariant is preserved by every serialized command. -/
lemma inv_exec {t0 t : Int} {st : EngineState} {c : Cmd} (ih : Inv t0 st) (ht : t0 ≤ t) :
    Inv t (exec st c t) := by
  have ih' : Inv t st := Inv_mono ih ht
  obtain ⟨hl, ha⟩ := ih'
  cases c with
  | tick o =>
      cases o with
      | none => exact ⟨hl, ha⟩
      | some o =>
          simp only [exec, observe]
          by_cases hobs : st.lastObs = some o
          · rw [if_pos hobs]
            exact ⟨hl, ha⟩
          · rw [if_neg hobs]
            cases hen : st.enabled with
            | false =>
                rw [handleEvent_disabled hen]
                refine ⟨fun p hp => hl p hp, ?_⟩
                intro g s hs
                have hs' : st.active = some (g, s) := hs
                have hact : st.active = none := by
                  cases hao : st.active with
                  | none => rfl
                  | some gs =>
                      obtain ⟨g', s'⟩ := gs
                      have := (ha g' s' hao).2.1
                      rw [hen] at this
                      exact absurd this (by simp)
                rw [hact] at hs'
                exact Option.noConfusion hs'
            | true =>
                obtain ⟨oon, oag⟩ := o
                cases hon : oon with
                | true =>
                    rw [handleEvent_online hen rfl]
                    refine ⟨fun p hp => closeSession_ledger ⟨hl, ha⟩ p hp, ?_⟩
                    intro g s hs
                    have hs' : (closeSession st t).active = some (g, s) := hs
                    rw [closeSession_active] at hs'
                    exact Option.noConfusion hs'
                | false =>
                    cases hag : oag with
                    | none =>
                        rw [handleEvent_nogame hen rfl rfl]
                        refine ⟨fun p hp => closeSession_ledger ⟨hl, ha⟩ p hp, ?_⟩
                        intro g s hs
                        have hs' : (closeSession st t).active = some (g, s) := hs
                        rw [closeSession_active] at hs'
                        exact Option.noConfusion hs'
                    | some g =>
                        cases hao : st.active with
                        | none =>
                            rw [handleEvent_open hen rfl rfl hao]
                            refine ⟨fun p hp => hl p hp, ?_⟩
                            intro g' s' hs'
                            have hs'' : (some (g, t) : Option (String × Int)) = some (g', s') := hs'
                            obtain ⟨rfl, rfl⟩ : g = g' ∧ t = s' := by
                              cases hs''
                              exact ⟨rfl, rfl⟩
                            refine ⟨le_refl t, hen, ?_, fun p hp => (hl p hp).2⟩
                            simp_all
                        | some gs =>
                            obtain ⟨g1, s⟩ := gs
                            obtain ⟨hs, -, -, hrec⟩ := ha g1 s hao
                            by_cases hgg : g1 = g
                            · subst hgg
                              rw [handleEvent_same hen rfl rfl hao]
                              refine ⟨fun p hp => hl p hp, ?_⟩
                              intro g' s' hs'
                              have hs'' : st.active = some (g', s') := hs'
                              rw [hao] at hs''
                              obtain ⟨rfl, rfl⟩ : g1 = g' ∧ s = s' := by
                                cases hs''
                                exact ⟨rfl, rfl⟩
                              refine ⟨hs, hen, ?_, hrec⟩
                              simp_all
                            · rw [handleEvent_switch hen rfl rfl hao hgg]
                              have hpres := @appendSession_pres st.ledger g1 s t
                                (fun p hp => ⟨(hl p hp).1, hrec p hp⟩) hs
                              refine ⟨fun p hp => hpres p hp, ?_⟩
                              intro g' s' hs'
                              have hs'' : (some (g, t) : Option (String × Int)) = some (g', s') := hs'
                              obtain ⟨rfl, rfl⟩ : g = g' ∧ t = s' := by
                                cases hs''
                                exact ⟨rfl, rfl⟩
                              refine ⟨le_refl t, hen, ?_, fun p hp => (hpres p hp).2⟩
                              simp_all
  | control b =>
      cases b with
      | true =>
          refine ⟨fun p hp => hl p hp, ?_⟩
          intro g s hs
          have hs' : st.active = some (g, s) := hs
          obtain ⟨h1, -, h3, h4⟩ := ha g s hs'
          exact ⟨h1, rfl, h3, h4⟩
      | false =>
          refine ⟨fun p hp => closeSession_ledger ⟨hl, ha⟩ p hp, ?_⟩
          intro g s hs
          have hs' : (closeSession st t).active = some (g, s) := hs
          rw [closeSession_active] at hs'
          exact Option.noConfusion hs'
  | clearOne g =>
      refine ⟨?_, ?_⟩
      · intro p hp
        exact hl p (mem_removeGame hp)
      · intro g' s hs
        have hs' : st.active = some (g', s) := hs
        obtain ⟨h1, h2, h3, h4⟩ := ha g' s hs'
        exact ⟨h1, h2, h3, fun p hp => h4 p (mem_removeGame hp)⟩
  | clearEverything =>
      refine ⟨?_, ?_⟩
      · intro p hp
        exact absurd hp (List.not_mem_nil p)
      · intro g' s hs
        have hs' : st.active = some (g', s) := hs
        obtain ⟨h1, h2, h3, -⟩ := ha g' s hs'
        refine ⟨h1, h2, h3, ?_⟩
        intro p hp
        exact absurd hp (List.not_mem_nil p)

/-- Every reachable engine state satisfies the invariant. -/
theorem inv_reachable {t0 : Int} {st : EngineState} (h : Reachable t0 st) : Inv t0 st := by
  induction h with
  | init e t =>
      constructor
      · intro p hp
        simp [initState] at hp
      · intro g s hs
        simp [initState] at hs
  | step h c t ht ih => exact inv_exec ih ht

/-! ## Supporting lemmas -/

lemma sumDur_nonneg {l : List Session} (h : ∀ x ∈ l, 0 ≤ x.duration) : 0 ≤ sumDur l := by
  induction l with
  | nil => simp [sumDur]
  | cons x xs ih =>
      simp only [sumDur, List.map_cons, List.sum_cons]
      have hx := h x (List.mem_cons_self _ _)
      have hxs := ih (fun y hy => h y (List.mem_cons_of_mem _ hy))
      simp only [sumDur] at hxs
      omega

lemma lookupRecord_appendSession (led : Ledger) (g : String) (s t : Int) :
    lookupRecord (appendSession led g s t) g =
      some (appendToRecord ((lookupRecord led g).getD emptyRecord) s t) := by
  induction led with
  | nil => simp [appendSession, lookupRecord]
  | cons q rest ih =>
      obtain ⟨k, r⟩ := q
      by_cases hk : k = g
      · simp [appendSession, lookupRecord, hk]
      · simp [appendSession, lookupRecord, hk, ih]

lemma removeGame_of_lookup_none {led : Ledger} {g : String}
    (h : lookupRecord led g = none) : removeGame led g = led := by
  induction led with
  | nil => rfl
  | cons q rest ih =>
      obtain ⟨k, r⟩ := q
      simp only [lookupRecord] at h
      by_cases hk : k = g
      · rw [if_pos hk] at h
        exact Option.noConfusion h
      · rw [if_neg hk] at h
        rw [removeGame, if_neg hk, ih h]

/-! ## Demonstration states (spec section 8, Scenarios A and B) -/

def obsA : Obs := ⟨false, some "AppA"⟩

def obsB : Obs := ⟨false, some "AppB"⟩

def obsIdle : Obs := ⟨true, none⟩

/-- Enabled engine that started tracking AppA at t = 0. -/
def stA : EngineState := exec (initState true) (Cmd.tick (some obsA)) 0

/-- The same engine after connectivity returned at t = 125. -/
def stClosed : EngineState := exec stA (Cmd.tick (some obsIdle)) 125

/-- The record Scenario A predicts for AppA. -/
def recA : GameRecord := ⟨125, some 125, [⟨0, 125, 125⟩]⟩

lemma reach_stA : Reachable 0 stA :=
  Reachable.step (Reachable.init true 0) (Cmd.tick (some obsA)) 0 (le_refl 0)

lemma reach_stClosed : Reachable 125 stClosed :=
  Reachable.step reach_stA (Cmd.tick (some obsIdle)) 125 (by norm_num)

/-! ## Claim theorems -/

/-- Claim C1: for every GameRecord in the ledger, at every reachable
state, `total_seconds` equals the sum of the `duration` fields of that
record's sessions, and the `sessions` sequence is ordered by
non-decreasing start timestamp. -/
theorem C1_ledger_invariant {t0 : Int} {st : EngineState} (h : Reachable t0 st) :
    ∀ p ∈ st.ledger,
      p.2.total_seconds = sumDur p.2.sessions ∧ sortedByStart p.2.sessions := by
  intro p hp
  have hwf := ((inv_reachable h).1 p hp).1.1
  exact ⟨hwf.1, hwf.2.1⟩

theorem C1_witness :
    ("AppA", recA) ∈ stClosed.ledger ∧
    recA.total_seconds = sumDur recA.sessions ∧ sortedByStart recA.sessions := by
  have hmem : ("AppA", recA) ∈ stClosed.ledger := by decide
  exact ⟨hmem, C1_ledger_invariant reach_stClosed ("AppA", recA) hmem⟩

/-- Claim C2: while tracking `g1`, a StatusEvent reporting offline with
foreground game `g2 ≠ g1` closes `g1`'s session at the event time and
opens `g2`'s session at that same event time — the closed session ends at
`t` and the new open session starts at `t`, with the new state tracking
`g2`. -/
theorem C2_atomic_switch {st : EngineState} {g1 g2 : String} {s t : Int}
    (hen : st.enabled = true) (hao : st.active = some (g1, s))
    (hobs : st.lastObs = some ⟨false, some g1⟩) (hne : g2 ≠ g1) :
    (exec st (Cmd.tick (some ⟨false, some g2⟩)) t).active = some (g2, t) ∧
    (lookupRecord (exec st (Cmd.tick (some ⟨false, some g2⟩)) t).ledger g1).map
        (fun r => r.sessions) =
      some (((lookupRecord st.ledger g1).getD emptyRecord).sessions ++ [⟨s, t, t - s⟩]) := by
  have hne' : st.lastObs ≠ some ⟨false, some g2⟩ := by
    rw [hobs]
    simp only [ne_eq, Option.some.injEq, Obs.mk.injEq, true_and, Option.some.injEq]
    intro hcon
    exact hne hcon.symm
  simp only [exec, observe]
  rw [if_neg hne']
  rw [handleEvent_switch hen rfl rfl hao (fun hcon => hne hcon.symm)]
  refine ⟨rfl, ?_⟩
  rw [lookupRecord_appendSession]
  simp [appendToRecord, closedSession]

theorem C2_witness :
    (exec stA (Cmd.tick (some ⟨false, some "AppB"⟩)) 60).active = some ("AppB", 60) ∧
    (lookupRecord (exec stA (Cmd.tick (some ⟨false, some "AppB"⟩)) 60).ledger "AppA").map
        (fun r => r.sessions) =
      some (((lookupRecord stA.ledger "AppA").getD emptyRecord).sessions ++ [⟨0, 60, 60⟩]) :=
  C2_atomic_switch (by decide) (by decide) (by decide) (by decide)

/-- Claim C5: in every reachable state there is at most one open session
process-wide (the single `active` slot holds at most one entry), and the
`active` entry is non-empty only while tracking is enabled and the last
observed status was offline with a foreground game. -/
theorem C5_single_open_session {t0 : Int} {st : EngineState} (h : Reachable t0 st) :
    st.active.toList.length ≤ 1 ∧
    ∀ g s, st.active = some (g, s) →
      st.enabled = true ∧ st.lastObs = some ⟨false, some g⟩ := by
  refine ⟨?_, ?_⟩
  · cases st.active <;> simp
  · intro g s hs
    obtain ⟨-, h2, h3, -⟩ := (inv_reachable h).2 g s hs
    exact ⟨h2, h3⟩

theorem C5_witness :
    stA.active = some ("AppA", 0) ∧ stA.active.toList.length ≤ 1 ∧
    stA.enabled = true ∧ stA.lastObs = some ⟨false, some "AppA"⟩ :=
  ⟨by decide, (C5_single_open_session reach_stA).1,
    (C5_single_open_session reach_stA).2 "AppA" 0 (by decide)⟩

/-- Claim C6: a tick whose observation equals the previously observed
`(online, active_game)` pair is a complete no-op — the state (tracking
state and ledger alike) is unchanged. -/
theorem C6_idempotent_tick (st : EngineState) (o : Obs) (t : Int)
    (h : st.lastObs = some o) : exec st (Cmd.tick (some o)) t = st := by
  simp only [exec, observe]
  rw [if_pos h]

theorem C6_witness :
    stA.lastObs = some obsA ∧ exec stA (Cmd.tick (some obsA)) 999 = stA :=
  ⟨by decide, C6_idempotent_tick stA obsA 999 (by decide)⟩

/-- Claim C4: `get_all_offline_times` responds with a boolean success flag
and a mapping from GameId to records of `total_seconds` (non-negative),
`last_played` (absent exactly when the game has no recorded sessions) and
`sessions` (ordered `start`/`end`/`duration` triples with consistent
durations). -/
theorem C4_response_shape {t0 : Int} {st : EngineState} (h : Reachable t0 st) :
    (get_all_offline_times st).success = true ∧
    ∀ p ∈ (get_all_offline_times st).result,
      0 ≤ p.2.total_seconds ∧
      (p.2.last_played = none ↔ p.2.sessions = []) ∧
      sortedByStart p.2.sessions ∧
      ∀ x ∈ p.2.sessions, x.duration = x.endT - x.start := by
  refine ⟨rfl, ?_⟩
  intro p hp
  obtain ⟨⟨⟨htot, hsort, hwf, hlp⟩, hne⟩, -⟩ := (inv_reachable h).1 p hp
  refine ⟨?_, ?_, hsort, fun x hx => (hwf x hx).2⟩
  · rw [htot]
    refine sumDur_nonneg ?_
    intro x hx
    obtain ⟨h1, h2⟩ := hwf x hx
    omega
  · constructor
    · intro hnone
      rw [hlp] at hnone
      have h1 : p.2.sessions.getLast? = none := Option.map_eq_none'.mp hnone
      have h2 := List.getLast?_isSome.mpr hne
      rw [h1] at h2
      exact absurd h2 (by simp)
    · intro hnil
      exact absurd hnil hne

theorem C4_witness :
    (get_all_offline_times stClosed).success = true ∧
    ("AppA", recA) ∈ (get_all_offline_times stClosed).result ∧
    0 ≤ recA.total_seconds ∧ (recA.last_played = none ↔ recA.sessions = []) := by
  have h := C4_response_shape reach_stClosed
  have hmem : ("AppA", recA) ∈ (get_all_offline_times stClosed).result := by decide
  exact ⟨h.1, hmem, (h.2 ("AppA", recA) hmem).1, (h.2 ("AppA", recA) hmem).2.1⟩

/-- Claim C3 counterexample: the clear request built by the frontend for a
single game carries the identifier under the key `game_name` (first
handler) — the key `game_id` never occurs — and the second handler's
clear-all request does not omit its key (it sends `gameId` with an
undefined value). -/
theorem C3_counterexample :
    (clearGameDataParams (some "AppA")).map Prod.fst = ["game_name"] ∧
    "game_id" ∉ (clearGameDataParams (some "AppA")).map Prod.fst ∧
    (clearGameDataParamsB none).map Prod.fst = ["gameId"] := by decide

/-- Claim C3 as amended: the first handler sends the identifier under the
parameter key `game_name` and omits the key to clear all games; the second
handler always sends the key `gameId` (with no value to clear all); and
clearing a GameId absent from the ledger is a successful no-op. -/
theorem C3_clear_requests :
    (∀ n : String, n ≠ "" → clearGameDataParams (some n) = [("game_name", n)]) ∧
    clearGameDataParams none = [] ∧
    (∀ g : Option String, clearGameDataParamsB g = [("gameId", g)]) ∧
    (∀ (led : Ledger) (g : String), lookupRecord led g = none →
      clear_offline_data led (some g) = (true, led)) := by
  refine ⟨?_, rfl, fun g => rfl, ?_⟩
  · intro n hn
    simp [clearGameDataParams, hn]
  · intro led g hg
    simp only [clear_offline_data]
    rw [removeGame_of_lookup_none hg]

theorem C3_witness :
    clearGameDataParams (some "AppA") = [("game_name", "AppA")] ∧
    clear_offline_data [("AppB", recA)] (some "AppA") = (true, [("AppB", recA)]) :=
  ⟨C3_clear_requests.1 "AppA" (by decide),
   C3_clear_requests.2.2.2 [("AppB", recA)] "AppA" (by decide)⟩

/-- Claim C9: the GameTimeItem display treats a `last_played` value of 0
as never played — for every GameTimeData whose `last_played` is 0, the
rendered text is "Never played" rather than a formatted time, because the
check is JavaScript truthiness rather than presence. -/
theorem C9_zero_last_played (fmt : Int → String) (timeData : GameTimeData)
    (h : timeData.last_played = 0) : lastPlayedText fmt timeData = "Never played" := by
  simp [lastPlayedText, h]

theorem C9_witness :
    (⟨0, 0, []⟩ : GameTimeData).last_played = 0 ∧
    lastPlayedText (fun _ => "long ago") ⟨0, 0, []⟩ = "Never played" :=
  ⟨rfl, C9_zero_last_played (fun _ => "long ago") ⟨0, 0, []⟩ rfl⟩

/-- Claim C10: the progress value handed to the per-game progress bar
equals `min(total_seconds / 3600, 100)`, never exceeds 100, and is
monotone non-decreasing in `total_seconds`. -/
theorem C10_progress_bounds (timeData td2 : GameTimeData) :
    nProgress timeData = min ((timeData.total_seconds : ℚ) / 3600) 100 ∧
    nProgress timeData ≤ 100 ∧
    (timeData.total_seconds ≤ td2.total_seconds → nProgress timeData ≤ nProgress td2) := by
  refine ⟨rfl, min_le_right _ _, ?_⟩
  intro hle
  refine min_le_min ?_ (le_refl _)
  refine (div_le_div_iff_of_pos_right (by norm_num)).mpr ?_
  exact_mod_cast hle

theorem C10_witness :
    nProgress ⟨3600, 0, []⟩ ≤ 100 ∧
    (3600 : Int) ≤ 7200 ∧ nProgress ⟨3600, 0, []⟩ ≤ nProgress ⟨7200, 0, []⟩ :=
  ⟨(C10_progress_bounds ⟨3600, 0, []⟩ ⟨3600, 0, []⟩).2.1, by norm_num,
   (C10_progress_bounds ⟨3600, 0, []⟩ ⟨7200, 0, []⟩).2.2 (by norm_num)⟩

/-! ## Claim C8: formatTime component structure -/

lemma append_char_ne {a b : String} {c c' : Char} (h : c ≠ c') :
    a ++ (⟨[c]⟩ : String) ≠ b ++ (⟨[c']⟩ : String) := by
  intro he
  have h1 : (a ++ (⟨[c]⟩ : String)).data.getLast? = some c := by
    rw [String.data_append]
    exact List.getLast?_concat _
  have h2 : (b ++ (⟨[c']⟩ : String)).data.getLast? = some c' := by
    rw [String.data_append]
    exact List.getLast?_concat _
  rw [he, h2] at h1
  exact h (Option.some.inj h1).symm

/-- Claim C8: for every non-negative whole number of seconds, the parts
joined by `formatTime` end with a seconds component; a minutes component
is present whenever the duration has no days and no hours component (so
`formatTime 0 = "0m 0s"`); and the days and hours components appear
exactly when their values are non-zero. -/
theorem C8_format_components (s : Nat) :
    (formatTimeParts s).getLast? = some (toString (intervalToDuration s).seconds ++ "s") ∧
    ((intervalToDuration s).days = 0 → (intervalToDuration s).hours = 0 →
      toString (intervalToDuration s).minutes ++ "m" ∈ formatTimeParts s) ∧
    formatTime 0 = "0m 0s" ∧
    ((∃ k : Nat, toString k ++ "d" ∈ formatTimeParts s) ↔ (intervalToDuration s).days ≠ 0) ∧
    ((∃ k : Nat, toString k ++ "h" ∈ formatTimeParts s) ↔ (intervalToDuration s).hours ≠ 0) := by
  refine ⟨?_, ?_, by decide, ?_, ?_⟩
  · simp only [formatTimeParts]
    exact List.getLast?_concat _
  · intro hd hh
    simp [formatTimeParts, hd, hh]
  · constructor
    · rintro ⟨k, hk⟩ hd
      by_cases hh : (intervalToDuration s).hours = 0
      · simp [formatTimeParts, hd, hh] at hk
        rcases hk with hk | hk
        · exact append_char_ne (by decide) hk
        · exact append_char_ne (by decide) hk
      · by_cases hm : (intervalToDuration s).minutes = 0
        · simp [formatTimeParts, hd, hh, hm] at hk
          rcases hk with hk | hk
          · exact append_char_ne (by decide) hk
          · exact append_char_ne (by decide) hk
        · simp [formatTimeParts, hd, hh, hm] at hk
          rcases hk with hk | hk | hk
          · exact append_char_ne (by decide) hk
          · exact append_char_ne (by decide) hk
          · exact append_char_ne (by decide) hk
    · intro hd
      refine ⟨(intervalToDuration s).days, ?_⟩
      by_cases hh : (intervalToDuration s).hours = 0 <;>
        by_cases hm : (intervalToDuration s).minutes = 0 <;>
        simp [formatTimeParts, hd, hh, hm]
  · constructor
    · rintro ⟨k, hk⟩ hh
      by_cases hd : (intervalToDuration s).days = 0
      · simp [formatTimeParts, hd, hh] at hk
        rcases hk with hk | hk
        · exact append_char_ne (by decide) hk
        · exact append_char_ne (by decide) hk
      · by_cases hm : (intervalToDuration s).minutes = 0
        · simp [formatTimeParts, hd, hh, hm] at hk
          rcases hk with hk | hk
          · exact append_char_ne (by decide) hk
          · exact append_char_ne (by decide) hk
        · simp [formatTimeParts, hd, hh, hm] at hk
          rcases hk with hk | hk | hk
          · exact append_char_ne (by decide) hk
          · exact append_char_ne (by decide) hk
          · exact append_char_ne (by decide) hk
    · intro hh
      refine ⟨(intervalToDuration s).hours, ?_⟩
      by_cases hd : (intervalToDuration s).days = 0 <;>
        by_cases hm : (intervalToDuration s).minutes = 0 <;>
        simp [formatTimeParts, hd, hh, hm]

theorem C8_witness :
    toString (intervalToDuration 0).minutes ++ "m" ∈ formatTimeParts 0 ∧
    formatTime 0 = "0m 0s" ∧
    (∃ k : Nat, toString k ++ "d" ∈ formatTimeParts 90061) :=
  ⟨(C8_format_components 0).2.1 (by decide) (by decide),
   (C8_format_components 0).2.2.1,
   (C8_format_components 90061).2.2.2.1.mpr (by decide)⟩

/-! ## Claim C7: load never fails startup -/

lemma parseRecordRest_total {fields : List (String × Json)} {tot : Int}
    {lp : Option Int} {r : GameRecord}
    (h : parseRecord.parseRecordRest fields tot lp = some r) : r.total_seconds = tot := by
  simp only [parseRecord.parseRecordRest] at h
  split at h
  · split at h
    · cases h
      rfl
    · exact Option.noConfusion h
  · exact Option.noConfusion h

lemma parseRecord_nonneg {j : Json} {r : GameRecord} (h : parseRecord j = some r) :
    0 ≤ r.total_seconds := by
  cases j with
  | num n => simp [parseRecord] at h
  | str a => simp [parseRecord] at h
  | bool b => simp [parseRecord] at h
  | null => simp [parseRecord] at h
  | arr xs => simp [parseRecord] at h
  | obj fields =>
      simp only [parseRecord] at h
      split at h
      · exact Option.noConfusion h
      · rename_i tot htot
        split at h
        · exact Option.noConfusion h
        · rename_i hlt
          split at h
          · split at h
            · exact Option.noConfusion h
            · have := parseRecordRest_total h
              omega
          · have := parseRecordRest_total h
            omega

lemma parseEntries_nonneg {fields : List (String × Json)} {led : Ledger}
    (h : parseEntries fields = some led) : ∀ p ∈ led, 0 ≤ p.2.total_seconds := by
  induction fields generalizing led with
  | nil =>
      simp only [parseEntries, Option.some.injEq] at h
      subst h
      intro p hp
      simp at hp
  | cons q rest ih =>
      obtain ⟨k, v⟩ := q
      simp only [parseEntries] at h
      cases hr : parseRecord v with
      | none =>
          rw [hr] at h
          simp at h
      | some r =>
          rw [hr] at h
          cases ht : parseEntries rest with
          | none =>
              rw [ht] at h
              simp at h
          | some tl =>
              rw [ht] at h
              simp only [Option.some.injEq] at h
              subst h
              intro p hp
              rcases List.mem_cons.mp hp with hp | hp
              · subst hp
                exact parseRecord_nonneg hr
              · exact ih ht p hp

/-- Claim C7: `load` never fails startup — a missing persisted file yields
the empty ledger, unparsable content also yields the empty ledger, and
every ledger it returns is well formed (non-negative totals). -/
theorem C7_load_total :
    load none = [] ∧
    (∀ j : Json, parseLedger j = none → load (some j) = []) ∧
    (∀ input : Option Json, ∀ p ∈ load input, 0 ≤ p.2.total_seconds) := by
  refine ⟨rfl, ?_, ?_⟩
  · intro j hj
    simp [load, hj]
  · intro input p hp
    cases input with
    | none => simp [load] at hp
    | some j =>
        simp only [load] at hp
        cases hpl : parseLedger j with
        | none =>
            rw [hpl] at hp
            simp at hp
        | some led =>
            rw [hpl] at hp
            simp only [Option.getD_some] at hp
            cases j with
            | obj fields => exact parseEntries_nonneg hpl p hp
            | num n => simp [parseLedger] at hpl
            | str a => simp [parseLedger] at hpl
            | bool b => simp [parseLedger] at hpl
            | null => simp [parseLedger] at hpl
            | arr xs => simp [parseLedger] at hpl

theorem C7_witness :
    load none = [] ∧ parseLedger (Json.str "corrupt") = none ∧
    load (some (Json.str "corrupt")) = [] :=
  ⟨C7_load_total.1, rfl, C7_load_total.2.1 (Json.str "corrupt") rfl⟩

end OfflineTimeTracker
